import Mathlib

set_option maxRecDepth 8000

/-!
Shallow embedding of the bibliography parsing and HTML rendering pipeline of
`src/pyssg.py` (classes `BibAuthor`, `BibEntry` and its variants, and
`BibliographyParser`, plus the rendering helpers `_source_html`, `_title_html`,
`_authors_html`, `_badges_html` and `as_html`).

Python strings are embedded as `String` / `List Char`; Python `None` for an
optional string field is `Option.none`; a Python exception is `Except.error`.
All scanning functions are written with structural recursion (a fuel argument
bounded by the input length, which every step strictly consumes), so that every
definition evaluates by kernel reduction.
-/

/-- ASCII whitespace stripped by Python `str.strip()` and matched by the regex
class `\s` (space, tab, newline, carriage return, vertical tab, form feed). -/
def isPySpace (c : Char) : Bool :=
  c = ' ' || c = '\t' || c = '\n' || c = '\r' || c = Char.ofNat 11 || c = Char.ofNat 12

/-- Characters matched by the regex class `\w` (ASCII letters, digits, underscore). -/
def isWordChar (c : Char) : Bool :=
  c.isAlpha || c.isDigit || c = '_'

/-- The opening curly brace character. -/
def lbrace : Char := Char.ofNat 123

/-- The closing curly brace character. -/
def rbrace : Char := Char.ofNat 125

/-- `str.strip()` on a character list: drop leading and trailing whitespace. -/
def pyStrip (cs : List Char) : List Char :=
  ((cs.dropWhile isPySpace).reverse.dropWhile isPySpace).reverse

/-- Membership test for the two brace characters (the set given to `str.strip("{}")`). -/
def isBraceChar (c : Char) : Bool := c = lbrace || c = rbrace

/-- `str.strip("{}")`: drop leading and trailing brace characters. -/
def stripBraces (cs : List Char) : List Char :=
  ((cs.dropWhile isBraceChar).reverse.dropWhile isBraceChar).reverse

/-- Worker for `splitSep`; the fuel starts above the input length and every
step consumes at least one character, so the fuel never runs out. -/
def splitSepAux (sep : List Char) : Nat → List Char → List Char → List (List Char)
  | 0, acc, rest => [acc.reverse ++ rest]
  | _ + 1, acc, [] => [acc.reverse]
  | fuel + 1, acc, c :: rest =>
    if sep.isPrefixOf (c :: rest) then
      acc.reverse :: splitSepAux sep fuel [] ((c :: rest).drop sep.length)
    else
      splitSepAux sep fuel (c :: acc) rest

/-- Python `str.split(sep)` for a non-empty separator: split at every
non-overlapping left-to-right occurrence of `sep`, keeping empty segments. -/
def splitSep (sep cs : List Char) : List (List Char) :=
  splitSepAux sep (cs.length + 1) [] cs

/-- Python `str.lower()` (ASCII). -/
def pyLower (s : String) : String := (s.toList.map Char.toLower).asString

/-- Python `str.replace(a, b)` for single-character `a`, `b`. -/
def pyReplaceChar (a b : Char) (s : String) : String :=
  (s.toList.map (fun c => if c = a then b else c)).asString

/-- Python truthiness of a string: non-empty. -/
def pyTruthy (s : String) : Bool := !s.toList.isEmpty

/-- Embedding of the dataclass `BibAuthor` of `src/pyssg.py`: `first_name` is
declared `Optional[str]` there, `last_name` is `str`. -/
structure BibAuthor where
  first_name : Option String
  last_name : String
deriving DecidableEq

/-- Embedding of `BibAuthor.from_string`: strip the input, split on the literal
separator `", "`; exactly two parts give `(last, first)` (each stripped),
any other number of parts gives the whole stripped string as the last name
with empty first name. -/
def BibAuthor.fromString (s : String) : BibAuthor :=
  let stripped := pyStrip s.toList
  let parts := splitSep ", ".toList stripped
  if parts.length = 2 then
    { first_name := some (pyStrip (parts.getD 1 [])).asString,
      last_name := (pyStrip (parts.getD 0 [])).asString }
  else
    { first_name := some "", last_name := stripped.asString }

/-- Embedding of `BibAuthor.__str__`: `f"{first} {last}"` when `first_name` is
truthy, otherwise just `last_name`. -/
def authorStr (a : BibAuthor) : String :=
  match a.first_name with
  | some f => if pyTruthy f then f ++ " " ++ a.last_name else a.last_name
  | none => a.last_name

/-- The field dictionary built by `BibliographyParser._parse_fields` (a Python
dict from field name to value, insertion ordered). -/
abbrev Dict := List (String × String)

/-- Python `dict.get(k)`: the (unique) binding of `k`, if any. -/
def dictGet : Dict → String → Option String
  | [], _ => none
  | (k0, v0) :: rest, k => if k0 = k then some v0 else dictGet rest k

/-- Python `dict[k] = v`: replace the value of an existing key in place,
otherwise append the new binding. -/
def dictSet : Dict → String → String → Dict
  | [], k, v => [(k, v)]
  | (k0, v0) :: rest, k, v =>
    if k0 = k then (k0, v) :: rest else (k0, v0) :: dictSet rest k v

/-- Numeric value of an ASCII digit character. -/
def digitVal (c : Char) : Nat := c.toNat - 48

/-- Tail of a Python integer literal after its first digit: digits with single
underscores allowed between digits. -/
def pyDigitsCore : List Char → Bool
  | [] => true
  | ['_'] => false
  | '_' :: c :: rest => c.isDigit && pyDigitsCore rest
  | c :: rest => c.isDigit && pyDigitsCore rest

/-- A valid unsigned Python integer literal body: non-empty, starts with a
digit, single underscores only between digits. -/
def pyDigitsOk : List Char → Bool
  | [] => false
  | c :: rest => c.isDigit && pyDigitsCore rest

/-- Value of a digit string, ignoring underscores. -/
def natOfDigits (cs : List Char) : Nat :=
  cs.foldl (fun n c => if c = '_' then n else n * 10 + digitVal c) 0

/-- Embedding of Python `int(s)` on a string: strip whitespace, optional sign,
then a digit sequence; `none` models the `ValueError` raised otherwise. -/
def pyInt (s : String) : Option Int :=
  match pyStrip s.toList with
  | '+' :: rest => if pyDigitsOk rest then some (Int.ofNat (natOfDigits rest)) else none
  | '-' :: rest => if pyDigitsOk rest then some (-(Int.ofNat (natOfDigits rest))) else none
  | cs => if pyDigitsOk cs then some (Int.ofNat (natOfDigits cs)) else none

/-- Common fields of the dataclass `BibEntry` of `src/pyssg.py`. -/
structure BibEntry where
  key : String
  title : String
  authors : List BibAuthor
  year : Int
  month : Option String
  url : Option String
  doi : Option String
  publisher : Option String
  abstract : Option String
  topic : Option String

/-- The dataclass `BibArticle` (journal article variant). -/
structure BibArticle extends BibEntry where
  journal : Option String
  volume : Option String
  number : Option String
  pages : Option String
  issn : Option String

/-- The dataclass `BibInProceedings` (conference proceedings variant). -/
structure BibInProceedings extends BibEntry where
  booktitle : Option String
  pages : Option String
  editor : Option String

/-- The dataclass `BibTechReport` (technical report variant). -/
structure BibTechReport extends BibEntry where
  institution : Option String
  type : Option String

/-- The author list built inside `BibEntry.from_dict`: split the `author`
field on the literal `" and "`, strip each part, and parse it with
`BibAuthor.from_string`; absent field gives an empty list. -/
def authorsOf (d : Dict) : List BibAuthor :=
  match dictGet d "author" with
  | none => []
  | some s => (splitSep " and ".toList s.toList).map
      (fun a => BibAuthor.fromString (pyStrip a).asString)

/-- The record built by `BibEntry.from_dict` once the year value `y` is known:
`key` and `title` default to `""`, the optional fields to `None`. -/
def BibEntry.build (d : Dict) (y : Int) : BibEntry :=
  { key := (dictGet d "key").getD "", title := (dictGet d "title").getD "",
    authors := authorsOf d, year := y,
    month := dictGet d "month", url := dictGet d "url", doi := dictGet d "doi",
    publisher := dictGet d "publisher", abstract := dictGet d "abstract",
    topic := dictGet d "topic" }

/-- Embedding of `BibEntry.from_dict`: `year = int(data.get("year", 0))` —
an absent field yields `0`, a present field is passed to `int(...)`, whose
`ValueError` on an unparsable string is modelled by `Except.error`. -/
def BibEntry.fromDict (d : Dict) : Except String BibEntry :=
  match dictGet d "year" with
  | none => Except.ok (BibEntry.build d 0)
  | some s =>
    match pyInt s with
    | some n => Except.ok (BibEntry.build d n)
    | none => Except.error ("ValueError: invalid literal for int: " ++ s)

/-- Embedding of `BibArticle.from_dict`: build the base entry, then copy the
variant fields from the dictionary. -/
def BibArticle.fromDict (d : Dict) : Except String BibArticle :=
  match BibEntry.fromDict d with
  | Except.error e => Except.error e
  | Except.ok base =>
    Except.ok { toBibEntry := base, journal := dictGet d "journal",
                volume := dictGet d "volume", number := dictGet d "number",
                pages := dictGet d "pages", issn := dictGet d "issn" }

/-- Embedding of `BibInProceedings.from_dict`. -/
def BibInProceedings.fromDict (d : Dict) : Except String BibInProceedings :=
  match BibEntry.fromDict d with
  | Except.error e => Except.error e
  | Except.ok base =>
    Except.ok { toBibEntry := base, booktitle := dictGet d "booktitle",
                pages := dictGet d "pages", editor := dictGet d "editor" }

/-- Embedding of `BibTechReport.from_dict`. -/
def BibTechReport.fromDict (d : Dict) : Except String BibTechReport :=
  match BibEntry.fromDict d with
  | Except.error e => Except.error e
  | Except.ok base =>
    Except.ok { toBibEntry := base, institution := dictGet d "institution",
                type := dictGet d "type" }

/-- The entries handled polymorphically in Python are a closed sum here. -/
inductive AnyEntry where
  | article (a : BibArticle)
  | inProc (p : BibInProceedings)
  | techReport (t : BibTechReport)

/-- The shared `BibEntry` fields of any entry. -/
def AnyEntry.base : AnyEntry → BibEntry
  | .article a => a.toBibEntry
  | .inProc p => p.toBibEntry
  | .techReport t => t.toBibEntry

/-- The sort key used by `BibliographyParser.__init__`. -/
def AnyEntry.year (e : AnyEntry) : Int := e.base.year

/-!
The field regex of `BibliographyParser._parse_fields`:
`(\w+)\s*=\s*\{([^}]*)\}|(\w+)\s*=\s*([^,\n]+)`, scanned with `re.findall`.
The scanners below implement exactly the leftmost-match, first-alternative,
greedy-with-backtracking semantics of that pattern.
-/

/-- Not a comma and not a newline: the class `[^,\n]`. -/
def notCommaNl (c : Char) : Bool := !(c = ',' || c = '\n')

/-- The first regex alternative `(\w+)\s*=\s*\{([^}]*)\}` matched at the start
of `cs`: greedy `\w+` (next char must not be a word char), whitespace, `=`,
whitespace, `{`, then everything up to the first `}` (which must exist).
Returns the two groups and the remaining input after the match. -/
def matchAlt1 (cs : List Char) : Option ((List Char × List Char) × List Char) :=
  if (cs.takeWhile isWordChar).isEmpty then none else
  match (cs.dropWhile isWordChar).dropWhile isPySpace with
  | '=' :: r3 =>
    match r3.dropWhile isPySpace with
    | c :: r5 =>
      if c = lbrace then
        match r5.dropWhile (fun x => !(x = rbrace)) with
        | _ :: r6 =>
          some ((cs.takeWhile isWordChar, r5.takeWhile (fun x => !(x = rbrace))), r6)
        | [] => none
      else none
    | [] => none
  | _ => none

/-- Backtracking between greedy `\s*` and `([^,\n]+)` in the second
alternative: first try the value right after the whole whitespace run; while it
is empty, give one whitespace character back to the value. -/
def backtrackVal : List Char → List Char → Option (List Char × List Char)
  | [], post =>
    if (post.takeWhile notCommaNl).isEmpty then none
    else some (post.takeWhile notCommaNl, post.dropWhile notCommaNl)
  | c :: wsRest, post =>
    if (post.takeWhile notCommaNl).isEmpty then backtrackVal wsRest (c :: post)
    else some (post.takeWhile notCommaNl, post.dropWhile notCommaNl)

/-- The second regex alternative `(\w+)\s*=\s*([^,\n]+)` matched at the start
of `cs`. -/
def matchAlt2 (cs : List Char) : Option ((List Char × List Char) × List Char) :=
  if (cs.takeWhile isWordChar).isEmpty then none else
  match (cs.dropWhile isWordChar).dropWhile isPySpace with
  | '=' :: r3 =>
    match backtrackVal (r3.takeWhile isPySpace).reverse (r3.dropWhile isPySpace) with
    | some (v, rest) => some ((cs.takeWhile isWordChar, v), rest)
    | none => none
  | _ => none

/-- The whole field pattern at one position: the first alternative is
preferred, as in a regex alternation. -/
def matchFieldAt (cs : List Char) : Option ((List Char × List Char) × List Char) :=
  match matchAlt1 cs with
  | some r => some r
  | none => matchAlt2 cs

/-- `re.findall` scan for the field pattern: try each start position left to
right, continuing after the end of every match.  Every successful match
consumes at least one character (the `\w+` group is non-empty), so fuel equal
to the input length is exact. -/
def scanFieldsAux : Nat → List Char → List (List Char × List Char)
  | 0, _ => []
  | _ + 1, [] => []
  | fuel + 1, c :: rest =>
    match matchFieldAt (c :: rest) with
    | some (p, after) => p :: scanFieldsAux fuel after
    | none => scanFieldsAux fuel rest

/-- All matches of the field pattern in `cs`. -/
def scanFields (cs : List Char) : List (List Char × List Char) :=
  scanFieldsAux cs.length cs

/-- `field_name = match[i].strip()` in `_parse_fields`. -/
def procName (n : List Char) : String := (pyStrip n).asString

/-- `field_value = match[i].strip()` followed by
`field_value.strip("{}").strip()` in `_parse_fields`. -/
def cleanValue (v : List Char) : String :=
  (pyStrip (stripBraces (pyStrip v))).asString

/-- The processed `(name, value)` pairs of all field matches, in match order. -/
def procPairs (ps : List (List Char × List Char)) : List (String × String) :=
  ps.map (fun p => (procName p.1, cleanValue p.2))

/-- Embedding of `BibliographyParser._parse_fields`: fold the processed pairs
into a dict, later occurrences of a name overwriting earlier ones. -/
def parseFieldsL (cs : List Char) : Dict :=
  (procPairs (scanFields cs)).foldl (fun d p => dictSet d p.1 p.2) []

/-- `_parse_fields` on a string. -/
def parseFields (s : String) : Dict := parseFieldsL s.toList

/-!
The record regex of `BibliographyParser.__init__`:
`@(\w+)\{([^,]+),\s*(.*?)\n\}` with `re.DOTALL`, scanned with `re.findall`.
-/

/-- Find the first occurrence of the two-character sequence `\n}`; returns the
characters before it and the input after it (`(.*?)` is lazy, so the earliest
occurrence wins). -/
def findNlBrace : List Char → Option (List Char × List Char)
  | [] => none
  | '\n' :: c :: rest =>
    if c = rbrace then some ([], rest)
    else
      match findNlBrace (c :: rest) with
      | some (b, a) => some ('\n' :: b, a)
      | none => none
  | c :: rest =>
    match findNlBrace rest with
    | some (b, a) => some (c :: b, a)
    | none => none

/-- Backtracking between greedy `\s*` and lazy `(.*?)\n\}`: first look for
`\n}` after the whole whitespace run; if there is none, give whitespace
characters back to the lazy group one at a time. -/
def backtrackBody : List Char → List Char → Option (List Char × List Char)
  | [], post => findNlBrace post
  | c :: wsRest, post =>
    match findNlBrace post with
    | some r => some r
    | none => backtrackBody wsRest (c :: post)

/-- The record pattern matched at the start of `cs`: `@`, greedy `\w+`, `{`,
greedy `[^,]+` up to the first comma, the comma, then whitespace and the lazy
body terminated by the first reachable `\n}`.  Returns `(type, key, body)` and
the remaining input. -/
def matchEntryAt (cs : List Char) : Option ((String × String × String) × List Char) :=
  match cs with
  | '@' :: cs1 =>
    let t := cs1.takeWhile isWordChar
    if t.isEmpty then none else
    match cs1.dropWhile isWordChar with
    | c :: r1 =>
      if c = lbrace then
        let k := r1.takeWhile (fun x => !(x = ','))
        if k.isEmpty then none else
        match r1.dropWhile (fun x => !(x = ',')) with
        | _ :: r2 =>
          let ws := r2.takeWhile isPySpace
          let post := r2.dropWhile isPySpace
          match backtrackBody ws.reverse post with
          | some (body, after) => some ((t.asString, k.asString, body.asString), after)
          | none => none
        | [] => none
      else none
    | [] => none
  | _ => none

/-- `re.findall` scan for the record pattern (fuel as in `scanFieldsAux`). -/
def scanEntriesAux : Nat → List Char → List (String × String × String)
  | 0, _ => []
  | _ + 1, [] => []
  | fuel + 1, c :: rest =>
    match matchEntryAt (c :: rest) with
    | some (r, after) => r :: scanEntriesAux fuel after
    | none => scanEntriesAux fuel rest

/-- All `(type, key, body)` record matches of a document, in document order. -/
def scanEntries (s : String) : List (String × String × String) :=
  scanEntriesAux s.toList.length s.toList

/-- One loop iteration of `BibliographyParser.__init__`: parse the fields,
store the record key under `"key"`, and dispatch on the record type
(`article`, `inproceedings`, `techreport`, anything else as a generic
article).  An exception during construction is an `Except.error`. -/
def buildEntry (etype key body : String) : Except String AnyEntry :=
  let data := dictSet (parseFields body) "key" key
  if etype = "article" then AnyEntry.article <$> BibArticle.fromDict data
  else if etype = "inproceedings" then AnyEntry.inProc <$> BibInProceedings.fromDict data
  else if etype = "techreport" then AnyEntry.techReport <$> BibTechReport.fromDict data
  else AnyEntry.article <$> BibArticle.fromDict data

/-- The entry list accumulated by `BibliographyParser.__init__` before
sorting: records in document order, records whose construction raised are
skipped (the `try`/`except ... continue` loop). -/
def collectEntries (content : String) : List AnyEntry :=
  (scanEntries content).filterMap (fun r => (buildEntry r.1 r.2.1 r.2.2).toOption)

/-- Stable insertion for the descending-by-year sort: the new element `x`
(which comes from earlier in the input than everything already inserted after
it is compared with) passes over exactly the elements with a strictly larger
year, so equal-year elements keep their input order. -/
def insertDesc (x : AnyEntry) : List AnyEntry → List AnyEntry
  | [] => [x]
  | y :: l => if y.year ≤ x.year then x :: y :: l else y :: insertDesc x l

/-- Embedding of `self.entries.sort(key=lambda x: x.year, reverse=True)`.
Python's sort is stable; a stable descending-by-key sort result is uniquely
determined (sorted non-increasing, equal keys in input order), and this
insertion sort produces exactly that result. -/
def sortByYearDesc : List AnyEntry → List AnyEntry
  | [] => []
  | x :: l => insertDesc x (sortByYearDesc l)

/-- The full `BibliographyParser` pipeline on a document string: scan records,
build entries, drop failures, sort by year descending (stable). -/
def parseBib (content : String) : List AnyEntry :=
  sortByYearDesc (collectEntries content)

/-!
The rendering layer.  `HTMLElement` of `src/pyssg.py` stores a tag, keyword
attributes and children; we embed the element tree.  A Python `None` child
renders as the empty string, so it is embedded as an absent child (empty
list); the attribute keys are converted with `_format_arg_key` at construction
time.
-/

/-- The HTML element tree built by the rendering methods. -/
inductive Node where
  | el (tag : String) (attrs : List (String × String)) (children : List Node)
  | text (s : String)

/-- Embedding of `HTMLElement._format_arg_key`: `cls` becomes `class`, keys
starting with `_` are kept, otherwise underscores become hyphens. -/
def formatArgKey (k : String) : String :=
  if k = "cls" then "class"
  else
    match k.toList with
    | '_' :: _ => k
    | _ => pyReplaceChar '_' '-' k

/-- Keyword attributes with their keys converted by `_format_arg_key`. -/
def mkAttrs (ps : List (String × String)) : List (String × String) :=
  ps.map (fun p => (formatArgKey p.1, p.2))

/-- An optional string child: Python `None` renders as nothing. -/
def optChild : Option String → List Node
  | none => []
  | some s => [Node.text s]

/-- Embedding of `ReferencesConfig.topics_class_name`:
`topic.split("&")[0].strip().replace(" ", "-").lower()`. -/
def topicsClassName (t : String) : String :=
  pyLower (pyReplaceChar ' ' '-' (pyStrip ((splitSep ['&'] t.toList).getD 0 [])).asString)

/-- `has_score = self.doi and self.doi.startswith("10.")` in `as_html`:
the DOI must be a truthy (non-empty) string starting with `10.`. -/
def hasScore (e : AnyEntry) : Bool :=
  match e.base.doi with
  | none => false
  | some d => pyTruthy d && "10.".toList.isPrefixOf d.toList

/-- `score_class = "with-score" if has_score else "no-score"` in `as_html`. -/
def scoreClass (e : AnyEntry) : String :=
  if hasScore e then "with-score" else "no-score"

/-- Python string interpolation of an `Optional[str]`: `None` prints as
the four-character string `None`. -/
def pyOptStr : Option String → String
  | none => "None"
  | some s => s

/-- The fallback href `f"https://doi.org/{self.doi}"` of `_title_html`. -/
def doiHref (e : AnyEntry) : String := "https://doi.org/" ++ pyOptStr e.base.doi

/-- The href of the title link: `self.url or f"https://doi.org/{self.doi}"`
(`or` takes the url only when it is truthy). -/
def titleHref (e : AnyEntry) : String :=
  match e.base.url with
  | some u => if pyTruthy u then u else doiHref e
  | none => doiHref e

/-- Embedding of `BibEntry._title_html`: the title link and a span holding
the DOI. -/
def titleHtml (e : AnyEntry) : List Node :=
  [Node.el "a" (mkAttrs [("href", titleHref e), ("target", "_blank")]) [Node.text e.base.title],
   Node.el "span" [] (optChild e.base.doi)]

/-- Embedding of `BibEntry._badges_html`: the three metric-badge provider
elements, emitted iff the DOI is truthy (`if self.doi else None`). -/
def badgesHtml (e : AnyEntry) : Option (List Node) :=
  match e.base.doi with
  | none => none
  | some d =>
    if pyTruthy d then
      some [Node.el "span" (mkAttrs [("cls", "__dimensions_badge_embed__"), ("data_doi", d),
              ("data_legend", "hover-right"), ("data_style", "small_circle")]) [],
            Node.el "div" (mkAttrs [("cls", "altmetric-embed"), ("data_badge_type", "donut"),
              ("data_badge_popover", "right"), ("data_doi", d)]) [],
            Node.el "a" (mkAttrs [("href", "https://plu.mx/plum/a/?doi=" ++ d),
              ("target", "_blank"), ("cls", "plumx-plum-print-popup"), ("data_popup", "right"),
              ("data_size", "medium"), ("data_site", "plum"),
              ("data_hide_when_empty", "true")]) []]
    else none

/-- A variant field rendered only when present and truthy, else empty. -/
def optStrIf : Option String → String
  | none => ""
  | some s => if pyTruthy s then s else ""

/-- The source string of `BibEntry._source_html`: `hasattr` probes make the
behaviour variant-specific — articles use `journal` plus volume/number
suffixes, proceedings use `booktitle`, tech reports have none of the probed
attributes. -/
def sourceStr : AnyEntry → String
  | .article a =>
    optStrIf a.journal
      ++ (match a.volume with
          | some v => if pyTruthy v then " | Vol. " ++ v else ""
          | none => "")
      ++ (match a.number with
          | some n => if pyTruthy n then " | No. " ++ n else ""
          | none => "")
  | .inProc p => optStrIf p.booktitle
  | .techReport _ => ""

/-- Embedding of `BibEntry._source_html`. -/
def sourceHtml (e : AnyEntry) : List Node :=
  [Node.el "span" [] [Node.text (sourceStr e)]]

/-- Substring test on character lists (Python `in` on strings). -/
def isSubstr : List Char → List Char → Bool
  | n, [] => n.isEmpty
  | n, c :: rest => n.isPrefixOf (c :: rest) || isSubstr n rest

/-- `match_author.lower() in str(author).lower()` in `_authors_html`. -/
def matchesAuthor (m : String) (a : BibAuthor) : Bool :=
  isSubstr (pyLower m).toList (pyLower (authorStr a)).toList

/-- The loop finding `matched_index`: the first author whose rendered name
contains the match string case-insensitively. -/
def matchedIndexAux (m : String) : Nat → List BibAuthor → Option Nat
  | _, [] => none
  | i, a :: rest => if matchesAuthor m a then some i else matchedIndexAux m (i + 1) rest

/-- Python `enumerate` starting at `i`. -/
def enumFrom {α : Type} : Nat → List α → List (Nat × α)
  | _, [] => []
  | i, a :: rest => (i, a) :: enumFrom (i + 1) rest

/-- Concatenation of the per-element lists (used to assemble the author
spans in loop order). -/
def flatMapL {α β : Type} (f : α → List β) : List α → List β
  | [] => []
  | a :: l => f a ++ flatMapL f l

/-- The `Span("...", cls="author-ellipsis")` element. -/
def ellipsisNode : Node :=
  Node.el "span" (mkAttrs [("cls", "author-ellipsis")]) [Node.text "..."]

/-- One iteration of the author loop in `_authors_html`: the visibility class,
the trailing comma for non-last authors, and the ellipsis spans appended
around the first and last author of an expandable (more than three authors)
list when they are not the matched author. -/
def authorChunk (total : Nat) (mi : Option Nat) (expands : Bool)
    (i : Nat) (a : BibAuthor) : List Node :=
  let isMatch : Bool := mi == some i
  let isFirst : Bool := i == 0
  let isLast : Bool := i == total - 1
  let visClass :=
    if isMatch then "author-match"
    else if !expands || isFirst || isLast then "author-visible"
    else "author-toggle"
  let ahtml := authorStr a ++ (if isLast then "" else ",")
  (if isLast && expands && !isMatch then [ellipsisNode] else [])
    ++ [Node.el "span" (mkAttrs [("cls", visClass)]) [Node.text ahtml]]
    ++ (if isFirst && expands && !isMatch then [ellipsisNode] else [])

/-- The author span list for a non-empty author list and a present match
string. -/
def authorsHtmlCore (authors : List BibAuthor) (m : String) : List Node :=
  flatMapL
    (fun p => authorChunk authors.length (matchedIndexAux m 0 authors)
      (decide (3 < authors.length)) p.1 p.2)
    (enumFrom 0 authors)

/-- Embedding of `BibEntry._authors_html`: an empty author list returns
`None` before anything else; otherwise `match_author.lower()` is evaluated,
which raises `AttributeError` when `match_author` is `None`. -/
def authorsHtml (e : AnyEntry) (matchAuthor : Option String) :
    Except String (Option (List Node)) :=
  if e.base.authors.isEmpty then Except.ok none
  else
    match matchAuthor with
    | none => Except.error "AttributeError: NoneType object has no attribute lower"
    | some m => Except.ok (some (authorsHtmlCore e.base.authors m))

/-- Decimal digits of `n` (fuel-based so it evaluates by reduction). -/
def natDigits : Nat → Nat → List Char
  | 0, _ => []
  | fuel + 1, n =>
    if n < 10 then [Char.ofNat (48 + n)]
    else natDigits fuel (n / 10) ++ [Char.ofNat (48 + n % 10)]

/-- Python `str(int)`. -/
def intStr : Int → String
  | Int.ofNat n => (natDigits (n + 1) n).asString
  | Int.negSucc n => "-" ++ (natDigits (n + 2) (n + 1)).asString

/-- Embedding of `BibEntry.as_html`: compose the entry fragment.  The two
failure points keep Python's evaluation order — `_authors_html` is called
first (raising when `match_author` is `None` and the author list is not
empty), then the class string evaluates
`ReferencesConfig.topics_class_name(self.topic)`, which raises when `topic`
is `None`. -/
def asHtml (e : AnyEntry) (matchAuthor : Option String) : Except String Node :=
  match authorsHtml e matchAuthor with
  | Except.error msg => Except.error msg
  | Except.ok authorsOpt =>
    match e.base.topic with
    | none => Except.error "AttributeError: NoneType object has no attribute split"
    | some t =>
      Except.ok (Node.el "div"
        (mkAttrs [("cls", "reference " ++ scoreClass e ++ " " ++ topicsClassName t),
                  ("style", "order: 200;")])
        [Node.el "div" (mkAttrs [("cls", "year")]) [Node.text (intStr e.base.year)],
         Node.el "div" (mkAttrs [("cls", "source")]) (sourceHtml e),
         Node.el "span" (mkAttrs [("cls", "topic")]) (optChild e.base.topic),
         Node.el "div" (mkAttrs [("cls", "title")]) (titleHtml e),
         Node.el "div" (mkAttrs [("cls", "badges")]) ((badgesHtml e).getD []),
         Node.el "div" (mkAttrs [("cls", "authors " ++
             (if decide (3 < e.base.authors.length) then "" else "expanded")),
           ("onClick", "this.classList.add(\x27expanded\x27)")]) (authorsOpt.getD []),
         Node.el "div" (mkAttrs [("cls", "abstract")])
           [Node.el "div" [] (optChild e.base.abstract)]])

/-- The `i`-th child of an element node. -/
def getChild (n : Node) (i : Nat) : Option Node :=
  match n with
  | Node.el _ _ cs => cs.get? i
  | Node.text _ => none

/-- The abstract block (child index 6) of a successful `as_html` rendering. -/
def abstractChildOf (r : Except String Node) : Option Node :=
  match r with
  | Except.ok n => getChild n 6
  | Except.error _ => none

/-- The span list of a successful `_authors_html` result (empty when the
result was `None`). -/
def spansOf (r : Except String (Option (List Node))) : List Node :=
  match r with
  | Except.ok (some l) => l
  | _ => []

/-- The value of the last occurrence of a name in a processed pair list
(used to state the overwrite behaviour of `_parse_fields`). -/
def lastVal : List (String × String) → String → Option String
  | [], _ => none
  | p :: ps, k =>
    match lastVal ps k with
    | some v => some v
    | none => if p.1 = k then some p.2 else none

/-!  Concrete inputs used to settle the claims.  -/

/-- A concrete article entry (test fixture). -/
def sampleArticle (key title : String) (authors : List BibAuthor) (year : Int)
    (doi url abstract topic : Option String) : AnyEntry :=
  AnyEntry.article ⟨⟨key, title, authors, year, none, url, doi, none, abstract, topic⟩,
    none, none, none, none, none⟩

/-- A document whose first record is malformed (its closing brace is
missing) and whose second record is well formed. -/
def docMerged : String :=
  "@article\x7bk1, title = \x7bA\x7d\n@article\x7bk2, title = \x7bB\x7d,\n\x7d\n"

/-- The well-formed second record of `docMerged` on its own. -/
def docWell : String := "@article\x7bk2, title = \x7bB\x7d,\n\x7d\n"

/-- A document whose first record has an unparsable year and whose second
record is well formed. -/
def docBadYear : String :=
  "@article\x7bk1, title = \x7bA\x7d, year = \x7bnineteen\x7d,\n\x7d\n@article\x7bk2, title = \x7bB\x7d, year = \x7b2020\x7d,\n\x7d\n"

/-- A single-record document whose year field does not parse as an integer. -/
def docYearBad : String := "@article\x7bkx, year = \x7bn.d.\x7d,\n\x7d\n"

/-- An entry whose DOI does not start with `10.`. -/
def eArx : AnyEntry :=
  sampleArticle "k" "T" [] 2020 (some "arXiv:1234") none none (some "Health")

/-- A 201-character abstract. -/
def abs201 : String := (List.replicate 201 'a').asString

/-- An entry whose abstract is longer than 200 characters. -/
def e201 : AnyEntry :=
  sampleArticle "k" "T" [] 2020 none none (some abs201) (some "Global Health")

/-- An entry with a short abstract (used as a witness input). -/
def eShortAbs : AnyEntry :=
  sampleArticle "k" "T" [] 2020 none none (some "hello") (some "T")

/-- An entry with neither url nor DOI. -/
def eNoLinks : AnyEntry := sampleArticle "k" "T" [] 2020 none none none (some "T")

/-- An entry with a DOI but no url (witness input). -/
def eDoiOnly : AnyEntry :=
  sampleArticle "k" "T" [] 2020 (some "10.1234/abc") none none (some "T")

/-- An entry with a truthy url (witness input). -/
def eUrl : AnyEntry :=
  sampleArticle "k" "T" [] 2020 (some "10.1234/abc") (some "https://x.example") none (some "T")

/-- An entry whose optional `topic` is absent. -/
def eNoTopic : AnyEntry :=
  sampleArticle "k" "T" [⟨some "A", "B"⟩] 2020 none none none none

/-- An entry with a topic but rendered with the omitted (default `None`)
`match_author` argument. -/
def eWithTopic : AnyEntry :=
  sampleArticle "k" "T" [⟨some "A", "B"⟩] 2020 none none none (some "T")

/-- An entry with two authors, the second matching `"smith"` (witness
input). -/
def eTwoAuthors : AnyEntry :=
  sampleArticle "k" "T" [⟨some "Sarai", "Keestra"⟩, ⟨some "John", "Smith"⟩] 2020
    none none none (some "T")

/-!  Theorems.  -/

theorem mem_insertDesc {x a : AnyEntry} {l : List AnyEntry}
    (h : a ∈ insertDesc x l) : a = x ∨ a ∈ l := by
  induction l with
  | nil => simpa [insertDesc] using h
  | cons y l ih =>
    simp only [insertDesc] at h
    split at h
    · rcases List.mem_cons.mp h with rfl | h
      · exact Or.inl rfl
      · exact Or.inr h
    · rcases List.mem_cons.mp h with rfl | h
      · exact Or.inr (List.mem_cons_self _ _)
      · rcases ih h with rfl | h
        · exact Or.inl rfl
        · exact Or.inr (List.mem_cons_of_mem _ h)

theorem pairwise_insertDesc {x : AnyEntry} {l : List AnyEntry}
    (h : l.Pairwise (fun a b => b.year ≤ a.year)) :
    (insertDesc x l).Pairwise (fun a b => b.year ≤ a.year) := by
  induction l with
  | nil => simp [insertDesc]
  | cons y l ih =>
    rcases List.pairwise_cons.mp h with ⟨hy, hl⟩
    simp only [insertDesc]
    split
    case isTrue hc =>
      refine List.pairwise_cons.mpr ⟨?_, h⟩
      intro b hb
      rcases List.mem_cons.mp hb with rfl | hb
      · exact hc
      · exact le_trans (hy b hb) hc
    case isFalse hc =>
      refine List.pairwise_cons.mpr ⟨?_, ih hl⟩
      intro b hb
      rcases mem_insertDesc hb with rfl | hb
      · exact le_of_lt (lt_of_not_le hc)
      · exact hy b hb

theorem filter_insertDesc (x : AnyEntry) (y : Int) :
    ∀ l : List AnyEntry,
      (insertDesc x l).filter (fun e => e.year == y)
        = (x :: l).filter (fun e => e.year == y) := by
  intro l
  induction l with
  | nil => rfl
  | cons z l ih =>
    simp only [insertDesc]
    split
    case isTrue hc => rfl
    case isFalse hc =>
      by_cases hz : z.year = y
      · by_cases hx : x.year = y
        · exact absurd (le_of_eq (hz.trans hx.symm)) hc
        · simp only [List.filter_cons, ih, beq_iff_eq, hz, hx, if_true, if_false,
            reduceIte]
      · by_cases hx : x.year = y
        · simp only [List.filter_cons, ih, beq_iff_eq, hz, hx, reduceIte]
        · simp only [List.filter_cons, ih, beq_iff_eq, hz, hx, reduceIte]

theorem filter_sortByYearDesc (y : Int) :
    ∀ l : List AnyEntry,
      (sortByYearDesc l).filter (fun e => e.year == y)
        = l.filter (fun e => e.year == y) := by
  intro l
  induction l with
  | nil => rfl
  | cons x l ih =>
    simp only [sortByYearDesc]
    rw [filter_insertDesc]
    simp only [List.filter_cons, ih]

theorem pairwise_sortByYearDesc :
    ∀ l : List AnyEntry, (sortByYearDesc l).Pairwise (fun a b => b.year ≤ a.year) := by
  intro l
  induction l with
  | nil => exact List.Pairwise.nil
  | cons x l ih => exact pairwise_insertDesc ih

/-- C1: for every input document, the entry sequence produced by the
bibliography parser is ordered non-increasing by `year`, and for every year
the entries carrying that year appear in exactly the order in which their
records were collected from the document (`collectEntries` enumerates records
in document order), i.e. the descending sort is stable. -/
theorem claim1_sorted_stable (content : String) :
    (parseBib content).Pairwise (fun a b => b.year ≤ a.year) ∧
    ∀ y : Int, (parseBib content).filter (fun e => e.year == y)
      = (collectEntries content).filter (fun e => e.year == y) :=
  ⟨pairwise_sortByYearDesc _, fun y => filter_sortByYearDesc y _⟩

/-- C2 counterexample: a field map whose `year` value is `"n.d."` makes
`BibEntry.from_dict` raise (it does not yield the sentinel 0), and a document
whose only record carries that year yields an empty entry list — the entry is
not retained. -/
theorem claim2_counterexample :
    (BibEntry.fromDict [("title", "T"), ("year", "n.d.")]).toOption = none ∧
    parseBib docYearBad = [] := by
  constructor <;> rfl

/-- C2 (amended): entry construction yields year 0 when the `year` field is
absent (such an entry is retained and sorts after every positive-year entry
in the descending order); when the field is present it must parse as a Python
integer, otherwise construction raises (`Except.error`) instead of falling
back to 0; a present parsable year is used as is. -/
theorem claim2_year_amended (d : Dict) :
    (dictGet d "year" = none →
      ∃ e, BibEntry.fromDict d = Except.ok e ∧ e.year = 0) ∧
    (∀ s, dictGet d "year" = some s → pyInt s = none →
      (BibEntry.fromDict d).toOption = none) ∧
    (∀ s n, dictGet d "year" = some s → pyInt s = some n →
      ∃ e, BibEntry.fromDict d = Except.ok e ∧ e.year = n) ∧
    (∀ content : String,
      (parseBib content).Pairwise (fun a b => a.year = 0 → b.year ≤ 0)) := by
  refine ⟨?_, ?_, ?_, ?_⟩
  · intro h
    refine ⟨BibEntry.build d 0, ?_, rfl⟩
    simp [BibEntry.fromDict, h]
  · intro s hs hp
    simp [BibEntry.fromDict, hs, hp, Except.toOption]
  · intro s n hs hp
    refine ⟨BibEntry.build d n, ?_, rfl⟩
    simp [BibEntry.fromDict, hs, hp]
  · intro content
    refine (pairwise_sortByYearDesc (collectEntries content)).imp ?_
    intro a b hle ha
    rw [ha] at hle
    exact hle

/-- C2 witness: the amended statement at concrete field maps. -/
theorem claim2_witness :
    (∃ e, BibEntry.fromDict [("title", "T")] = Except.ok e ∧ e.year = 0) ∧
    (BibEntry.fromDict [("title", "U"), ("year", "n.d.")]).toOption = none ∧
    (∃ e, BibEntry.fromDict [("year", "2023")] = Except.ok e ∧ e.year = 2023) :=
  ⟨(claim2_year_amended _).1 rfl,
   (claim2_year_amended _).2.1 "n.d." rfl rfl,
   (claim2_year_amended _).2.2.1 "2023" 2023 rfl rfl⟩

/-- C3: `BibAuthor.from_string` strips the input and splits on the literal
`", "`; exactly two parts give part 0 as the last name and part 1 as the
first name (both stripped); any other part count makes the whole stripped
input the last name with an empty first name. -/
theorem claim3_author_split (s : String) :
    ((splitSep ", ".toList (pyStrip s.toList)).length = 2 →
      BibAuthor.fromString s =
        { first_name := some (pyStrip ((splitSep ", ".toList (pyStrip s.toList)).getD 1 [])).asString,
          last_name := (pyStrip ((splitSep ", ".toList (pyStrip s.toList)).getD 0 [])).asString }) ∧
    ((splitSep ", ".toList (pyStrip s.toList)).length ≠ 2 →
      BibAuthor.fromString s =
        { first_name := some "", last_name := (pyStrip s.toList).asString }) := by
  constructor
  · intro h
    simp only [BibAuthor.fromString]
    rw [if_pos h]
  · intro h
    simp only [BibAuthor.fromString]
    rw [if_neg h]

/-- C3 witness: the two branches at concrete author strings. -/
theorem claim3_witness :
    BibAuthor.fromString "Keestra, Sarai M."
      = { first_name := some "Sarai M.", last_name := "Keestra" } ∧
    BibAuthor.fromString "Madonna"
      = { first_name := some "", last_name := "Madonna" } := by
  constructor
  · exact (claim3_author_split "Keestra, Sarai M.").1 (by decide)
  · exact (claim3_author_split "Madonna").2 (by decide)

/-- C5 counterexample: an entry with `doi = "arXiv:1234"` is classed
`no-score`, yet `_badges_html` still emits the badge markup — badges are not
restricted to the with-score case. -/
theorem claim5_counterexample :
    scoreClass eArx = "no-score" ∧ (badgesHtml eArx).isSome = true := by
  constructor <;> rfl

theorem scoreClass_with_iff (e : AnyEntry) :
    scoreClass e = "with-score" ↔ hasScore e = true := by
  unfold scoreClass
  split
  case isTrue h => simp [h]
  case isFalse h =>
    constructor
    · intro hh; exact absurd hh (by decide)
    · intro hh; exact absurd hh h

theorem hasScore_iff (e : AnyEntry) :
    hasScore e = true ↔
      ∃ d, e.base.doi = some d ∧ "10.".toList.isPrefixOf d.toList = true := by
  unfold hasScore
  cases hd : e.base.doi with
  | none => simp
  | some d =>
    simp only [Bool.and_eq_true, Option.some.injEq]
    constructor
    · rintro ⟨_, hp⟩
      exact ⟨d, rfl, hp⟩
    · rintro ⟨d2, hdd, hp⟩
      subst hdd
      refine ⟨?_, hp⟩
      cases ht : d.toList with
      | nil =>
        rw [ht] at hp
        exact absurd hp (by decide)
      | cons c rest =>
        have hdata : d.data = c :: rest := ht
        simp [pyTruthy, String.toList, hdata]

/-- C5 (amended): the rendered fragment carries `with-score` iff the DOI is
present and starts with `10.` (else `no-score`), but the badge markup of the
three providers is emitted iff the DOI is present and non-empty, regardless of
the `10.` prefix. -/
theorem claim5_score_badges (e : AnyEntry) :
    (scoreClass e = "with-score" ↔
      ∃ d, e.base.doi = some d ∧ "10.".toList.isPrefixOf d.toList = true) ∧
    (scoreClass e ≠ "with-score" → scoreClass e = "no-score") ∧
    ((badgesHtml e).isSome = true ↔ ∃ d, e.base.doi = some d ∧ pyTruthy d = true) := by
  refine ⟨?_, ?_, ?_⟩
  · rw [scoreClass_with_iff]
    exact hasScore_iff e
  · intro h
    by_cases hc : hasScore e = true
    · exact absurd (by simp [scoreClass, hc]) h
    · simp [scoreClass, hc]
  · cases hd : e.base.doi with
    | none => simp [badgesHtml, hd]
    | some d =>
      by_cases hp : pyTruthy d = true
      · simp [badgesHtml, hd, hp]
      · simp [badgesHtml, hd, Bool.of_not_eq_true hp]

/-- C5 witness: the amended statement at concrete entries with a bare-DOI
entry and an `arXiv`-DOI entry. -/
theorem claim5_witness :
    scoreClass eArx = "no-score" ∧
    scoreClass eDoiOnly = "with-score" ∧
    (badgesHtml eDoiOnly).isSome = true :=
  ⟨(claim5_score_badges eArx).2.1 (by decide),
   (claim5_score_badges eDoiOnly).1.mpr ⟨"10.1234/abc", rfl, by decide⟩,
   (claim5_score_badges eDoiOnly).2.2.mpr ⟨"10.1234/abc", rfl, rfl⟩⟩

/-- C8 counterexample: an entry with neither url nor DOI gets the href
`https://doi.org/None` (Python interpolates `None`), never the literal `#`. -/
theorem claim8_counterexample :
    titleHref eNoLinks = "https://doi.org/None" ∧ ¬ titleHref eNoLinks = "#" := by
  refine ⟨rfl, by decide⟩

/-- C8 (amended): the href of the rendered title link is the explicit url
when that is set and non-empty, else `https://doi.org/{doi}` — where an
absent DOI interpolates as the string `None`; the literal `#` is never
produced. -/
theorem claim8_href_amended (e : AnyEntry) :
    (∀ u, e.base.url = some u → pyTruthy u = true → titleHref e = u) ∧
    ((e.base.url = none ∨ ∃ u, e.base.url = some u ∧ pyTruthy u = false) →
      titleHref e = "https://doi.org/" ++ pyOptStr e.base.doi) ∧
    (titleHtml e).get? 0 = some (Node.el "a"
      (mkAttrs [("href", titleHref e), ("target", "_blank")]) [Node.text e.base.title]) := by
  refine ⟨?_, ?_, rfl⟩
  · intro u hu ht
    simp [titleHref, hu, ht]
  · rintro (h | ⟨u, hu, ht⟩)
    · simp [titleHref, doiHref, h]
    · simp [titleHref, doiHref, hu, ht]

/-- C8 witness: the three href cases at concrete entries. -/
theorem claim8_witness :
    titleHref eUrl = "https://x.example" ∧
    titleHref eDoiOnly = "https://doi.org/" ++ pyOptStr eDoiOnly.base.doi ∧
    titleHref eNoLinks = "https://doi.org/" ++ pyOptStr eNoLinks.base.doi :=
  ⟨(claim8_href_amended eUrl).1 "https://x.example" rfl rfl,
   (claim8_href_amended eDoiOnly).2.1 (Or.inl rfl),
   (claim8_href_amended eNoLinks).2.1 (Or.inl rfl)⟩

/-- C10: rendering is not total on absent optional data — an entry whose
`topic` is `None` makes `as_html` raise `AttributeError` inside
`topics_class_name`, and an entry with authors rendered with the omitted
(default `None`) `match_author` raises `AttributeError` on
`match_author.lower()`. -/
theorem claim10_optional_crash :
    (asHtml eNoTopic (some "B")).toOption = none ∧
    (asHtml eWithTopic none).toOption = none := by
  constructor <;> rfl

/-- C6 counterexample: an entry whose abstract has 201 characters renders the
abstract block as the full, untruncated text with no extra node — the
rendered text is not the 200-character prefix followed by an ellipsis marker
(`…` or `...`), and no show-more affordance exists. -/
theorem claim6_counterexample :
    abstractChildOf (asHtml e201 none) =
      some (Node.el "div" [("class", "abstract")]
        [Node.el "div" [] [Node.text abs201]]) ∧
    abs201.toList.length = 201 ∧
    ¬ ((abs201.toList.take 200).asString ++ "…" = abs201) ∧
    ¬ ((abs201.toList.take 200).asString ++ "..." = abs201) := by
  refine ⟨rfl, by decide, by decide, by decide⟩

/-- C6 (amended): `as_html` always renders the full abstract unchanged — the
abstract block is `Div(Div(abstract))` with no truncation, no ellipsis and no
affordance, whatever the abstract length. -/
theorem claim6_abstract_amended (e : AnyEntry) (m : Option String) (node : Node)
    (s : String) (h : asHtml e m = Except.ok node) (ha : e.base.abstract = some s) :
    getChild node 6 = some (Node.el "div" [("class", "abstract")]
      [Node.el "div" [] [Node.text s]]) := by
  unfold asHtml at h
  cases hA : authorsHtml e m with
  | error msg => rw [hA] at h; cases h
  | ok ao =>
    rw [hA] at h
    cases ht : e.base.topic with
    | none => rw [ht] at h; cases h
    | some t =>
      rw [ht] at h
      injection h with h
      subst h
      rw [ha]
      rfl

/-- C6 witness: the amended statement at a concrete entry with a short
abstract. -/
theorem claim6_witness :
    abstractChildOf (asHtml eShortAbs none) =
      some (Node.el "div" [("class", "abstract")]
        [Node.el "div" [] [Node.text "hello"]]) := by
  cases hE : asHtml eShortAbs none with
  | error msg =>
    have hOk : (asHtml eShortAbs none).toOption.isSome = true := rfl
    rw [hE] at hOk
    simp [Except.toOption] at hOk
  | ok node =>
    have h := claim6_abstract_amended eShortAbs none node "hello" hE rfl
    exact h

/-- C4 counterexample: a document whose first record is malformed (missing
its closing brace) followed by a well-formed record yields exactly one entry,
but that entry carries the malformed record's key `k1`, not the key `k2` the
well-formed record yields when parsed alone — the surviving entry is not the
well-formed record. -/
theorem claim4_counterexample :
    (parseBib docMerged).map (fun e => e.base.key) = ["k1"] ∧
    (parseBib docWell).map (fun e => e.base.key) = ["k2"] := by
  constructor <;> rfl

/-- C4 (amended): a record that raises during entry construction (for
example an unparsable year) is excluded while the remaining records still
parse; but a record missing its closing brace is not simply dropped — the
record match extends through the following well-formed record, producing a
single merged entry that keeps the malformed record's key while later
duplicate fields overwrite earlier ones. -/
theorem claim4_error_recovery :
    (parseBib docMerged).map (fun e => (e.base.key, e.base.title, e.base.year))
      = [("k1", "B", 0)] ∧
    (parseBib docBadYear).map (fun e => (e.base.key, e.base.title, e.base.year))
      = [("k2", "B", 2020)] := by
  constructor <;> rfl

theorem matchedIndexAux_spec {m : String} :
    ∀ {as : List BibAuthor} {j i : Nat}, matchedIndexAux m j as = some i →
      ∃ t a, i = j + t ∧ as.get? t = some a ∧ matchesAuthor m a = true := by
  intro as
  induction as with
  | nil => intro j i h; simp [matchedIndexAux] at h
  | cons b rest ih =>
    intro j i h
    simp only [matchedIndexAux] at h
    split at h
    case isTrue hb =>
      injection h with h
      exact ⟨0, b, by omega, rfl, hb⟩
    case isFalse hb =>
      rcases ih h with ⟨t, a, hi, hget, hm⟩
      exact ⟨t + 1, a, by omega, hget, hm⟩

theorem mem_enumFrom {α : Type} :
    ∀ {as : List α} {j t : Nat} {a : α}, as.get? t = some a →
      (j + t, a) ∈ enumFrom j as := by
  intro as
  induction as with
  | nil => intro j t a h; simp at h
  | cons b rest ih =>
    intro j t a h
    cases t with
    | zero =>
      simp only [List.get?] at h
      injection h with h
      subst h
      simp [enumFrom]
    | succ t =>
      simp only [List.get?] at h
      have hmem := ih (j := j + 1) h
      have harith : j + (t + 1) = (j + 1) + t := by omega
      rw [harith]
      exact List.mem_cons_of_mem _ hmem

theorem mem_flatMapL {α β : Type} {f : α → List β} {b : β} :
    ∀ {l : List α} {a : α}, a ∈ l → b ∈ f a → b ∈ flatMapL f l := by
  intro l
  induction l with
  | nil => intro a h; cases h
  | cons x rest ih =>
    intro a h hb
    rcases List.mem_cons.mp h with rfl | h
    · exact List.mem_append.mpr (Or.inl hb)
    · exact List.mem_append.mpr (Or.inr (ih h hb))

theorem authorChunk_match (total : Nat) (expands : Bool) (i : Nat) (a : BibAuthor) :
    authorChunk total (some i) expands i a =
      [Node.el "span" (mkAttrs [("cls", "author-match")])
        [Node.text (authorStr a ++ (if (i == total - 1 : Bool) then "" else ","))]] := by
  simp [authorChunk]

/-- C9 counterexample: `BibAuthor.__str__` renders `"{first} {last}"`, not
`"{last}, {first}"`, and performs no HTML escaping (a `<` in a name is kept
verbatim). -/
theorem claim9_counterexample :
    authorStr ⟨some "Sarai", "Keestra"⟩ = "Sarai Keestra" ∧
    ¬ authorStr ⟨some "Sarai", "Keestra"⟩ = "Keestra, Sarai" ∧
    authorStr ⟨some "<i>", "X"⟩ = "<i> X" := by
  refine ⟨rfl, by decide, rfl⟩

/-- C9 (amended): rendering an author produces `"{first} {last}"` (or just
`"{last}"` when the first name is absent or empty) with no HTML escaping;
in the authors block the first author whose rendered name contains the match
string case-insensitively is marked with the highlight class `author-match`
(with the trailing comma appended to every non-last author). -/
theorem claim9_author_render :
    (∀ (a : BibAuthor) (f : String), a.first_name = some f → pyTruthy f = true →
      authorStr a = f ++ " " ++ a.last_name) ∧
    (∀ a : BibAuthor,
      (a.first_name = none ∨ ∃ f, a.first_name = some f ∧ pyTruthy f = false) →
      authorStr a = a.last_name) ∧
    (∀ (e : AnyEntry) (m : String) (spans : List Node) (i : Nat),
      authorsHtml e (some m) = Except.ok (some spans) →
      matchedIndexAux m 0 e.base.authors = some i →
      ∃ a, e.base.authors.get? i = some a ∧
        Node.el "span" (mkAttrs [("cls", "author-match")])
          [Node.text (authorStr a ++
            (if (i == e.base.authors.length - 1 : Bool) then "" else ","))] ∈ spans) := by
  refine ⟨?_, ?_, ?_⟩
  · intro a f hf ht
    simp [authorStr, hf, ht]
  · rintro a (h | ⟨f, hf, ht⟩)
    · simp [authorStr, h]
    · simp [authorStr, hf, ht]
  · intro e m spans i hA hMi
    unfold authorsHtml at hA
    split at hA
    · injection hA with hA; cases hA
    · rw [Except.ok.injEq, Option.some.injEq] at hA
      subst hA
      rcases matchedIndexAux_spec hMi with ⟨t, a, hi, hget, _⟩
      have hit : i = t := by omega
      subst hit
      refine ⟨a, hget, ?_⟩
      unfold authorsHtmlCore
      have hmem : ((0 : Nat) + i, a) ∈ enumFrom 0 e.base.authors := mem_enumFrom hget
      rw [Nat.zero_add] at hmem
      refine mem_flatMapL hmem ?_
      rw [hMi, authorChunk_match]
      exact List.mem_singleton.mpr rfl

theorem scanFieldsAux_nil : ∀ f : Nat, scanFieldsAux f [] = [] := by
  intro f
  cases f <;> rfl

theorem takeWhile_middle {p : Char → Bool} :
    ∀ (xs : List Char) (y : Char) (ys : List Char),
      (∀ c ∈ xs, p c = true) → p y = false →
      (xs ++ y :: ys).takeWhile p = xs ∧ (xs ++ y :: ys).dropWhile p = y :: ys := by
  intro xs
  induction xs with
  | nil =>
    intro y ys _ hy
    simp [List.takeWhile_cons, List.dropWhile_cons, hy]
  | cons x xs ih =>
    intro y ys hall hy
    have hx : p x = true := hall x (List.mem_cons_self x xs)
    have h2 := ih y ys (fun c hc => hall c (List.mem_cons_of_mem x hc)) hy
    simp [List.cons_append, List.takeWhile_cons, List.dropWhile_cons, hx, h2.1, h2.2]

theorem takeWhile_all {p : Char → Bool} :
    ∀ l : List Char, (∀ c ∈ l, p c = true) →
      l.takeWhile p = l ∧ l.dropWhile p = [] := by
  intro l
  induction l with
  | nil => intro _; exact ⟨rfl, rfl⟩
  | cons x xs ih =>
    intro hall
    have hx : p x = true := hall x (List.mem_cons_self x xs)
    have h2 := ih (fun c hc => hall c (List.mem_cons_of_mem x hc))
    simp [List.takeWhile_cons, List.dropWhile_cons, hx, h2.1, h2.2]

theorem pyStrip_eq_self {cs : List Char} (h : ∀ c ∈ cs, isPySpace c = false) :
    pyStrip cs = cs := by
  unfold pyStrip
  have h1 : cs.dropWhile isPySpace = cs := by
    cases cs with
    | nil => rfl
    | cons c rest => simp [List.dropWhile_cons, h c (List.mem_cons_self c rest)]
  rw [h1]
  have h2 : cs.reverse.dropWhile isPySpace = cs.reverse := by
    cases hr : cs.reverse with
    | nil => rfl
    | cons c rest =>
      have hc : c ∈ cs := by
        have hm : c ∈ cs.reverse := by
          rw [hr]; exact List.mem_cons_self c rest
        exact List.mem_reverse.mp hm
      simp [List.dropWhile_cons, h c hc]
  rw [h2, List.reverse_reverse]

theorem word_not_space {c : Char} (h : isWordChar c = true) : isPySpace c = false := by
  cases hs : isPySpace c
  · rfl
  · exfalso
    simp only [isPySpace, Bool.or_eq_true, decide_eq_true_eq] at hs
    rcases hs with ((((rfl | rfl) | rfl) | rfl) | rfl) | rfl <;>
      exact absurd h (by decide)

theorem dictGet_dictSet :
    ∀ (d : Dict) (k0 v k : String),
      dictGet (dictSet d k0 v) k = if k0 = k then some v else dictGet d k := by
  intro d
  induction d with
  | nil => intro k0 v k; simp [dictSet, dictGet]
  | cons p rest ih =>
    intro k0 v k
    obtain ⟨k1, v1⟩ := p
    simp only [dictSet]
    by_cases h1 : k1 = k0
    · subst h1
      simp only [if_pos rfl, dictGet]
      by_cases h2 : k1 = k <;> simp [h2]
    · simp only [if_neg h1, dictGet]
      by_cases h2 : k1 = k
      · subst h2
        have h0 : ¬ k0 = k1 := fun hh => h1 hh.symm
        simp [h0]
      · simp [h2, ih k0 v k]

theorem dictGet_foldl :
    ∀ (ps : List (String × String)) (d : Dict) (k : String),
      dictGet (ps.foldl (fun d p => dictSet d p.1 p.2) d) k
        = match lastVal ps k with
          | some v => some v
          | none => dictGet d k := by
  intro ps
  induction ps with
  | nil => intro d k; rfl
  | cons p ps ih =>
    intro d k
    simp only [List.foldl_cons, lastVal]
    rw [ih (dictSet d p.1 p.2) k]
    cases hL : lastVal ps k with
    | some v => simp [hL]
    | none =>
      by_cases hk : p.1 = k <;> simp [hL, hk, dictGet_dictSet]

theorem matchFieldAt_braced (name v : List Char) (hne : name ≠ [])
    (hword : ∀ c ∈ name, isWordChar c = true) (hnb : ∀ c ∈ v, ¬ c = rbrace) :
    matchFieldAt (name ++ ' ' :: '=' :: ' ' :: lbrace :: (v ++ [rbrace]))
      = some ((name, v), []) := by
  have h1 := takeWhile_middle (p := isWordChar) name ' '
    ('=' :: ' ' :: lbrace :: (v ++ [rbrace])) hword (by decide)
  have h2 := takeWhile_middle (p := fun x => !(x = rbrace)) v rbrace []
    (fun c hc => by simp [hnb c hc]) (by decide)
  have hni : name.isEmpty = false := by
    cases name
    · exact absurd rfl hne
    · rfl
  unfold matchFieldAt matchAlt1
  rw [h1.1, h1.2, hni]
  simp +decide only [List.dropWhile_cons, Bool.false_eq_true, if_false, if_true]
  rw [h2.1, h2.2]

theorem backtrackVal_ws1 (c : Char) (post : List Char)
    (h : (post.takeWhile notCommaNl).isEmpty = false) :
    backtrackVal [c] post
      = some (post.takeWhile notCommaNl, post.dropWhile notCommaNl) := by
  unfold backtrackVal
  rw [h]
  simp

theorem matchFieldAt_bare (name : List Char) (v0 : Char) (v : List Char)
    (hne : name ≠ []) (hword : ∀ c ∈ name, isWordChar c = true)
    (hs0 : isPySpace v0 = false) (hb0 : ¬ v0 = lbrace)
    (hval : ∀ c ∈ v0 :: v, notCommaNl c = true) :
    matchFieldAt (name ++ ' ' :: '=' :: ' ' :: v0 :: v)
      = some ((name, v0 :: v), []) := by
  have h1 := takeWhile_middle (p := isWordChar) name ' '
    ('=' :: ' ' :: v0 :: v) hword (by decide)
  have hni : name.isEmpty = false := by
    cases name
    · exact absurd rfl hne
    · rfl
  have hv := takeWhile_all (p := notCommaNl) (v0 :: v) hval
  unfold matchFieldAt matchAlt1 matchAlt2
  rw [h1.1, h1.2, hni]
  simp +decide only [List.dropWhile_cons, List.takeWhile_cons, Bool.false_eq_true,
    if_false, if_true, hs0, if_neg hb0]
  rw [show (([' '] : List Char).reverse) = ([' '] : List Char) from rfl]
  rw [backtrackVal_ws1 ' ' (v0 :: v) (by rw [hv.1]; rfl)]
  rw [hv.1, hv.2]

theorem scanFields_single (cs : List Char) (name v : List Char)
    (hm : matchFieldAt cs = some ((name, v), []))
    (hcs : ∃ n0 rest, cs = n0 :: rest) :
    scanFields cs = [(name, v)] := by
  obtain ⟨n0, rest, rfl⟩ := hcs
  unfold scanFields
  simp only [List.length_cons]
  unfold scanFieldsAux
  rw [hm]
  show (name, v) :: scanFieldsAux rest.length [] = [(name, v)]
  rw [scanFieldsAux_nil]

/-- C7 counterexample: `_parse_fields` does not lowercase field names — the
record body `Title = {X}` maps the key `Title`, and a lookup of the lowercase
`title` finds nothing. -/
theorem claim7_counterexample :
    parseFields "Title = \x7bX\x7d" = [("Title", "X")] ∧
    dictGet (parseFields "Title = \x7bX\x7d") "title" = none := by
  constructor <;> rfl

/-- C7 (amended): `_parse_fields` maps each field name as written (stripped
but not lowercased) to its trimmed, brace-stripped value; for every body and
key the resulting binding is the value of the last matching occurrence
(later occurrences overwrite earlier ones); a brace-delimited value extends
to the first closing brace, and a bare value is a token extending to the next
comma or newline. -/
theorem claim7_fields_amended :
    (∀ (body : List Char) (k : String),
      dictGet (parseFieldsL body) k = lastVal (procPairs (scanFields body)) k) ∧
    (∀ name v : List Char, name ≠ [] → (∀ c ∈ name, isWordChar c = true) →
      (∀ c ∈ v, ¬ c = rbrace) →
      parseFieldsL (name ++ ' ' :: '=' :: ' ' :: lbrace :: (v ++ [rbrace]))
        = [(name.asString, cleanValue v)]) ∧
    (∀ (name : List Char) (v0 : Char) (v : List Char), name ≠ [] →
      (∀ c ∈ name, isWordChar c = true) → isPySpace v0 = false → ¬ v0 = lbrace →
      (∀ c ∈ v0 :: v, notCommaNl c = true) →
      parseFieldsL (name ++ ' ' :: '=' :: ' ' :: v0 :: v)
        = [(name.asString, cleanValue (v0 :: v))]) := by
  refine ⟨?_, ?_, ?_⟩
  · intro body k
    unfold parseFieldsL
    rw [dictGet_foldl]
    cases hL : lastVal (procPairs (scanFields body)) k with
    | some v => rfl
    | none => rfl
  · intro name v hne hword hnb
    have hm := matchFieldAt_braced name v hne hword hnb
    have hsc := scanFields_single _ name v hm
      (by cases name with
          | nil => exact absurd rfl hne
          | cons n0 nrest =>
            exact ⟨n0, nrest ++ ' ' :: '=' :: ' ' :: lbrace :: (v ++ [rbrace]), rfl⟩)
    unfold parseFieldsL
    rw [hsc]
    have hpn : procName name = name.asString := by
      unfold procName
      rw [pyStrip_eq_self (fun c hc => word_not_space (hword c hc))]
    simp [procPairs, hpn, dictSet]
  · intro name v0 v hne hword hs0 hb0 hval
    have hm := matchFieldAt_bare name v0 v hne hword hs0 hb0 hval
    have hsc := scanFields_single _ name (v0 :: v) hm
      (by cases name with
          | nil => exact absurd rfl hne
          | cons n0 nrest =>
            exact ⟨n0, nrest ++ ' ' :: '=' :: ' ' :: v0 :: v, rfl⟩)
    unfold parseFieldsL
    rw [hsc]
    have hpn : procName name = name.asString := by
      unfold procName
      rw [pyStrip_eq_self (fun c hc => word_not_space (hword c hc))]
    simp [procPairs, hpn, dictSet]

/-- C7 witness: the braced and bare branches at concrete field fragments. -/
theorem claim7_witness :
    parseFieldsL ("title".toList ++ ' ' :: '=' :: ' ' :: lbrace :: ("A Study".toList ++ [rbrace]))
      = [("title", "A Study")] ∧
    parseFieldsL ("year".toList ++ ' ' :: '=' :: ' ' :: '2' :: "020".toList)
      = [("year", "2020")] := by
  constructor
  · exact claim7_fields_amended.2.1 "title".toList "A Study".toList
      (by decide) (by decide) (by decide)
  · exact claim7_fields_amended.2.2 "year".toList '2' "020".toList
      (by decide) (by decide) (by decide) (by decide) (by decide)

/-- C9 witness: the amended statement at a concrete two-author entry with the
match string `"smith"`. -/
theorem claim9_witness :
    authorStr ⟨some "John", "Smith"⟩ = "John Smith" ∧
    Node.el "span" (mkAttrs [("cls", "author-match")]) [Node.text "John Smith"]
      ∈ spansOf (authorsHtml eTwoAuthors (some "smith")) := by
  constructor
  · exact claim9_author_render.1 ⟨some "John", "Smith"⟩ "John" rfl rfl
  · have h := claim9_author_render.2.2 eTwoAuthors "smith"
      (authorsHtmlCore eTwoAuthors.base.authors "smith") 1 rfl rfl
    rcases h with ⟨a, hget, hmem⟩
    have ha : some (⟨some "John", "Smith"⟩ : BibAuthor) = some a := hget
    injection ha with ha
    subst ha
    exact hmem
